import Mathlib

/-!
Verification development for the turborepo remote build-cache archive engine
(crates/turborepo-cache and crates/turbopath).

The Rust sources are shallowly embedded: pure functions become Lean functions,
filesystem-mutating code becomes explicit state passing over a finite
filesystem model, machine integers become Nat with explicit reduction
modulo 2^32 or 256 where overflow matters, and fallible code returns
Except / Option.  The host platform throughout the model is POSIX (unix),
matching the cfg(unix) branches of the source.
-/

set_option maxRecDepth 100000

namespace Turbo

/-! ## Bytes and 32-bit words

Bytes are Nat values below 256; 32-bit words are Nat values below 2^32.
All word arithmetic reduces modulo 2^32 explicitly. -/

def w32 (n : Nat) : Nat := n % 4294967296

def add32 (a b : Nat) : Nat := w32 (a + b)

def not32 (a : Nat) : Nat := 4294967295 ^^^ a

def rotr32 (n x : Nat) : Nat := w32 ((x >>> n) ||| (x <<< (32 - n)))

def shr32 (n x : Nat) : Nat := x >>> n

/-- Big-endian 4-byte expansion of a 32-bit word; every byte is < 256 by
construction. -/
def wordBytes (x : Nat) : List Nat :=
  [x / 16777216 % 256, x / 65536 % 256, x / 256 % 256, x % 256]

/-! ## SHA-256

Executable model of the SHA-256 function used (through the ring crate's
HMAC_SHA256) by signature_authentication.rs.  Messages and digests are byte
lists. -/

def sha256K : List Nat :=
  [1116352408, 1899447441, 3049323471, 3921009573, 961987163,
   1508970993, 2453635748, 2870763221, 3624381080, 310598401,
   607225278, 1426881987, 1925078388, 2162078206, 2614888103,
   3248222580, 3835390401, 4022224774, 264347078, 604807628,
   770255983, 1249150122, 1555081692, 1996064986, 2554220882,
   2821834349, 2952996808, 3210313671, 3336571891, 3584528711,
   113926993, 338241895, 666307205, 773529912, 1294757372,
   1396182291, 1695183700, 1986661051, 2177026350, 2456956037,
   2730485921, 2820302411, 3259730800, 3345764771, 3516065817,
   3600352804, 4094571909, 275423344, 430227734, 506948616,
   659060556, 883997877, 958139571, 1322822218, 1537002063,
   1747873779, 1955562222, 2024104815, 2227730452, 2361852424,
   2428436474, 2756734187, 3204031479, 3329325298]

structure Sha256State where
  a : Nat
  b : Nat
  c : Nat
  d : Nat
  e : Nat
  f : Nat
  g : Nat
  h : Nat
deriving Repr, DecidableEq

def sha256Init : Sha256State :=
  ⟨1779033703, 3144134277, 1013904242, 2773480762,
   1359893119, 2600822924, 528734635, 1541459225⟩

/-- The SHA-256 padding: append 0x80, zero bytes up to 56 mod 64, then the
bit length as a big-endian 8-byte integer. -/
def sha256Pad (msg : List Nat) : List Nat :=
  let r := msg.length % 64
  let zeros := (119 - r) % 64
  let bits := msg.length * 8
  msg ++ [0x80] ++ List.replicate zeros 0 ++
    [bits / 72057594037927936 % 256, bits / 281474976710656 % 256,
     bits / 1099511627776 % 256, bits / 4294967296 % 256,
     bits / 16777216 % 256, bits / 65536 % 256, bits / 256 % 256, bits % 256]

/-- Split a byte list into 64-byte blocks (fuel-structured so that the kernel
can evaluate it; the fuel always suffices). -/
def toBlocksAux : Nat → List Nat → List (List Nat)
  | 0, _ => []
  | _ + 1, [] => []
  | n + 1, l => (l.take 64) :: toBlocksAux n (l.drop 64)

def toBlocks (l : List Nat) : List (List Nat) :=
  toBlocksAux l.length l

/-- Message schedule: the first 16 words come from the block (big endian),
words 16..63 are derived. -/
def schedRound (w : List Nat) (_i : Nat) : List Nat :=
  let x := w.getD (w.length - 15) 0
  let y := w.getD (w.length - 2) 0
  let s0 := (rotr32 7 x) ^^^ (rotr32 18 x) ^^^ (shr32 3 x)
  let s1 := (rotr32 17 y) ^^^ (rotr32 19 y) ^^^ (shr32 10 y)
  w ++ [add32 (add32 (w.getD (w.length - 16) 0) s0)
              (add32 (w.getD (w.length - 7) 0) s1)]

def blockWords (block : List Nat) : List Nat :=
  let w16 := (List.range 16).map fun i =>
    block.getD (4 * i) 0 * 16777216 + block.getD (4 * i + 1) 0 * 65536 +
    block.getD (4 * i + 2) 0 * 256 + block.getD (4 * i + 3) 0
  (List.range 48).foldl schedRound w16

def compressRound (w : List Nat) (st : Sha256State) (i : Nat) : Sha256State :=
  let s1 := (rotr32 6 st.e) ^^^ (rotr32 11 st.e) ^^^ (rotr32 25 st.e)
  let ch := (st.e &&& st.f) ^^^ ((not32 st.e) &&& st.g)
  let t1 := add32 (add32 (add32 st.h s1) (add32 ch (sha256K.getD i 0)))
                  (w.getD i 0)
  let s0 := (rotr32 2 st.a) ^^^ (rotr32 13 st.a) ^^^ (rotr32 22 st.a)
  let maj := (st.a &&& st.b) ^^^ (st.a &&& st.c) ^^^ (st.b &&& st.c)
  let t2 := add32 s0 maj
  ⟨add32 t1 t2, st.a, st.b, st.c, add32 st.d t1, st.e, st.f, st.g⟩

def sha256Block (st : Sha256State) (block : List Nat) : Sha256State :=
  let w := blockWords block
  let r := (List.range 64).foldl (compressRound w) st
  ⟨add32 st.a r.a, add32 st.b r.b, add32 st.c r.c, add32 st.d r.d,
   add32 st.e r.e, add32 st.f r.f, add32 st.g r.g, add32 st.h r.h⟩

def sha256 (msg : List Nat) : List Nat :=
  let fin := (toBlocks (sha256Pad msg)).foldl sha256Block sha256Init
  wordBytes fin.a ++ wordBytes fin.b ++ wordBytes fin.c ++ wordBytes fin.d ++
  wordBytes fin.e ++ wordBytes fin.f ++ wordBytes fin.g ++ wordBytes fin.h

/-! ## HMAC-SHA256 (ring::hmac contract, RFC 2104)

The block size of SHA-256 is 64 bytes.  Keys longer than one block are
replaced by their SHA-256 digest; shorter keys are padded with zero bytes. -/

def hmacBlockKey (key : List Nat) : List Nat :=
  let k := if key.length > 64 then sha256 key else key
  k ++ List.replicate (64 - k.length) 0

def hmacSha256 (key msg : List Nat) : List Nat :=
  let k := hmacBlockKey key
  sha256 ((k.map fun b => b ^^^ 0x5c) ++
          sha256 ((k.map fun b => b ^^^ 0x36) ++ msg))

/-! ## Base64 (standard alphabet, padded)

Model of the base64 crate's BASE64_STANDARD engine: the standard alphabet,
mandatory padding, strict decoding (invalid characters, invalid length and
non-zero trailing bits are rejected). -/

def b64Alphabet : List Char :=
  "ABCDEFGHIJKLMNOPQRSTUVWXYZabcdefghijklmnopqrstuvwxyz0123456789+/".toList

def b64Char (v : Nat) : Char := b64Alphabet.getD v 'A'

def b64Value (c : Char) : Option Nat := b64Alphabet.findIdx? (· = c)

def base64EncodeChunks : List Nat → List Char
  | [] => []
  | [a] => [b64Char (a / 4), b64Char (a % 4 * 16), '=', '=']
  | [a, b] => [b64Char (a / 4), b64Char (a % 4 * 16 + b / 16),
               b64Char (b % 16 * 4), '=']
  | a :: b :: c :: rest =>
      b64Char (a / 4) :: b64Char (a % 4 * 16 + b / 16) ::
      b64Char (b % 16 * 4 + c / 64) :: b64Char (c % 64) ::
      base64EncodeChunks rest

def base64Encode (bs : List Nat) : String := ⟨base64EncodeChunks bs⟩

def base64DecodeChunks : List Char → Option (List Nat)
  | [] => some []
  | w :: x :: y :: z :: rest =>
      if y = '=' ∧ z = '=' ∧ rest = [] then do
        let a ← b64Value w
        let b ← b64Value x
        if b % 16 = 0 then some [a * 4 + b / 16] else none
      else if z = '=' ∧ rest = [] then do
        let a ← b64Value w
        let b ← b64Value x
        let c ← b64Value y
        if c % 4 = 0 then some [a * 4 + b / 16, b % 16 * 16 + c / 4] else none
      else do
        let a ← b64Value w
        let b ← b64Value x
        let c ← b64Value y
        let d ← b64Value z
        let tail ← base64DecodeChunks rest
        some ((a * 4 + b / 16) :: (b % 16 * 16 + c / 4) ::
              (c % 4 * 64 + d) :: tail)
  | _ => none

def base64Decode (s : String) : Option (List Nat) :=
  base64DecodeChunks s.toList

/-! ## signature_authentication.rs

The HMAC key is the raw byte value of the TURBO_REMOTE_CACHE_SIGNATURE_KEY
environment variable; we model it as an explicit byte-list parameter (the
claims quantify over "any fixed signature key present in the environment").
The team id is the authenticator's field; it is a parameter as well. -/

inductive SignatureError where
  | noSignatureSecretKey
  | serializationError
  | base64EncodingError
deriving Repr, DecidableEq

/-- serde_json string escaping: quote and backslash are escaped, the control
characters 0x08/0x09/0x0a/0x0c/0x0d get short escapes, the remaining control
characters become a \u00XX escape; everything else is copied verbatim. -/
def jsonEscapeChar (c : Char) : List Char :=
  if c = '"' then ['\\', '"']
  else if c = '\\' then ['\\', '\\']
  else if c = Char.ofNat 8 then ['\\', 'b']
  else if c = Char.ofNat 9 then ['\\', 't']
  else if c = Char.ofNat 10 then ['\\', 'n']
  else if c = Char.ofNat 12 then ['\\', 'f']
  else if c = Char.ofNat 13 then ['\\', 'r']
  else if c.toNat < 32 then
    ['\\', 'u', '0', '0',
     "0123456789abcdef".toList.getD (c.toNat / 16) '0',
     "0123456789abcdef".toList.getD (c.toNat % 16) '0']
  else [c]

/-- A serde_json JSON string literal. -/
def jsonStringLit (s : String) : String :=
  "\"" ++ ⟨s.toList.flatMap jsonEscapeChar⟩ ++ "\""

def joinComma : List String → String
  | [] => ""
  | [x] => x
  | x :: xs => x ++ "," ++ joinComma xs

/-- serde_json serialization of a struct: the fields in declaration order,
each a name/value pair of JSON string literals, comma separated. -/
def serdeJsonStringStruct (fields : List (String × String)) : String :=
  "\x7b" ++ joinComma
    (fields.map fun f => jsonStringLit f.1 ++ ":" ++ jsonStringLit f.2) ++
    "\x7d"

/-- ArtifactSignature has the fields hash and team_id (the latter renamed to
teamId by a serde attribute), in that declaration order. -/
def constructMetadata (hash teamId : String) : String :=
  serdeJsonStringStruct [("hash", hash), ("teamId", teamId)]

/-- UTF-8 encoding of a string (String::into_bytes / str::as_bytes). -/
def utf8Bytes (s : String) : List Nat :=
  s.toList.flatMap fun c =>
    let n := c.toNat
    if n < 128 then [n]
    else if n < 2048 then [192 + n / 64, 128 + n % 64]
    else if n < 65536 then [224 + n / 4096, 128 + n / 64 % 64, 128 + n % 64]
    else [240 + n / 262144, 128 + n / 4096 % 64, 128 + n / 64 % 64,
          128 + n % 64]

/-- generate_tag_bytes: HMAC over the metadata followed by the artifact body
(the hmac::Context accumulates updates, so the message is the
concatenation). -/
def generateTagBytes (key : List Nat) (teamId hash : String)
    (artifactBody : List Nat) : List Nat :=
  hmacSha256 key (utf8Bytes (constructMetadata hash teamId) ++ artifactBody)

/-- generate_tag: the base64 (standard, padded) encoding of the HMAC tag. -/
def generateTag (key : List Nat) (teamId hash : String)
    (artifactBody : List Nat) : String :=
  base64Encode (generateTagBytes key teamId hash artifactBody)

/-- validate_tag: recompute the message and compare the raw expected bytes
with the ring::hmac::verify contract (constant-time equality). -/
def validateTag (key : List Nat) (teamId hash : String)
    (artifactBody expectedTag : List Nat) : Except SignatureError Bool :=
  let message := utf8Bytes (constructMetadata hash teamId) ++ artifactBody
  .ok (hmacSha256 key message == expectedTag)

/-- validate: base64-decode the expected tag (propagating a decode failure as
Base64EncodingError) and compare the HMAC of metadata ++ body with it. -/
def validate (key : List Nat) (teamId hash : String)
    (artifactBody : List Nat) (expectedTag : String) :
    Except SignatureError Bool :=
  let message := utf8Bytes (constructMetadata hash teamId) ++ artifactBody
  match base64Decode expectedTag with
  | none => .error .base64EncodingError
  | some expectedBytes => .ok (hmacSha256 key message == expectedBytes)

/-! ## Claims C1, C7, C10 (signature authentication) -/

/-! ## Path strings (unix host)

Paths handled by the archive code are modelled as strings with '/' as
separator (the unix host of the cfg(unix) branches).  Rust Path semantics
(Path::components, Path::starts_with, Path::ends_with) are component-based:
repeated separators and non-leading "." segments are normalized away by the
component iterator, while ".." segments are ordinary components. -/

def splitCharAux (sep : Char) : List Char → List Char → List (List Char)
  | cur, [] => [cur.reverse]
  | cur, c :: cs =>
      if c = sep then cur.reverse :: splitCharAux sep [] cs
      else splitCharAux sep (c :: cur) cs

/-- str::split on the '/' separator (kernel-evaluable model of
String.splitOn "/"). -/
def splitSlash (s : String) : List String :=
  (splitCharAux '/' [] s.toList).map List.asString

/-- str::starts_with for string prefixes. -/
def strStartsWith (s p : String) : Bool := p.toList.isPrefixOf s.toList

/-- str::ends_with for string suffixes. -/
def strEndsWith (s p : String) : Bool := s.toList.reverse.take p.toList.length
  = p.toList.reverse

/-- str::contains for a single character. -/
def strContainsChar (s : String) (c : Char) : Bool := s.toList.contains c

/-- Rust Path::components of a relative path, collected: empty and "."
segments are dropped ("." is kept when it is the leading component), ".."
segments are kept. -/
def relComponents (s : String) : List String :=
  let keep := (splitSlash s).filter fun c => (c != "") && (c != ".")
  if s = "." ∨ strStartsWith s "./" then "." :: keep else keep

/-- Rust Path::components of an absolute path, with the root component left
implicit (all absolute paths in the model share it). -/
def absComponents (s : String) : List String :=
  (splitSlash s).filter fun c => (c != "") && (c != ".")

/-- Rust Path::ends_with: the suffix matches whole trailing components, not
trailing characters of the file name. -/
def rustPathEndsWith (p suffix : String) : Bool :=
  let pc := if strStartsWith p "/" then absComponents p else relComponents p
  (relComponents suffix).isSuffixOf pc

/-- The path-clean lexical cleaner (path_clean crate, a port of Go
path.Clean), on already-split segments; the accumulator is the reversed
output stack. -/
def cleanSegs (rooted : Bool) : List String → List String → List String
  | stack, [] => stack
  | stack, p :: rest =>
    if p = "" ∨ p = "." then cleanSegs rooted stack rest
    else if p = ".." then
      match stack with
      | [] =>
          if rooted then cleanSegs rooted [] rest
          else cleanSegs rooted [".."] rest
      | top :: stail =>
          if top = ".." then cleanSegs rooted (".." :: top :: stail) rest
          else cleanSegs rooted stail rest
    else cleanSegs rooted (p :: stack) rest

def pathClean (s : String) : String :=
  let rooted := strStartsWith s "/"
  let comps := (cleanSegs rooted [] (splitSlash s)).reverse
  if comps.isEmpty then (if rooted then "/" else ".")
  else (if rooted then "/" else "") ++ String.intercalate "/" comps

/-- Lexical cleaning of an absolute path given as a component list. -/
def cleanAbsComps (l : List String) : List String :=
  (cleanSegs true [] l).reverse

instance {ε α : Type} [DecidableEq ε] [DecidableEq α] :
    DecidableEq (Except ε α) := fun a b =>
  match a, b with
  | .ok x, .ok y =>
      if h : x = y then isTrue (h ▸ rfl)
      else isFalse fun he => h (Except.ok.inj he)
  | .error x, .error y =>
      if h : x = y then isTrue (h ▸ rfl)
      else isFalse fun he => h (Except.error.inj he)
  | .ok _, .error _ => isFalse fun h => Except.noConfusion h
  | .error _, .ok _ => isFalse fun h => Except.noConfusion h

/-! ## Cache archive errors (lib.rs CacheError, restore-relevant variants) -/

inductive CacheError where
  | io (msg : String)
  | malformedName (name : String)
  | windowsUnsafeName (name : String)
  | unsupportedFileType
  | linkOutsideOfDirectory (target : String)
  | linkTargetDoesNotExist (target : String)
  | cycleDetected
deriving Repr, DecidableEq

/-! ## Reader / writer compression sniffing (restore.rs CacheReader::open and
writer.rs CacheArchive::create)

Both compute is_compressed as path.as_path().ends_with(".zst"), which is
Rust Path::ends_with — a whole-component comparison. -/

inductive StreamFormat where
  | zstdFramedTar
  | plainTar
deriving Repr, DecidableEq

def cacheReaderIsCompressed (path : String) : Bool :=
  rustPathEndsWith path ".zst"

/-- CacheReader::open wraps the file in a zstd decoder before tar parsing
exactly when is_compressed holds. -/
def cacheReaderFormat (path : String) : StreamFormat :=
  if cacheReaderIsCompressed path then .zstdFramedTar else .plainTar

def cacheCreateIsCompressed (path : String) : Bool :=
  rustPathEndsWith path ".zst"

/-- CacheArchive::create layers a zstd encoder under the tar builder exactly
when is_compressed holds. -/
def cacheCreateFormat (path : String) : StreamFormat :=
  if cacheCreateIsCompressed path then .zstdFramedTar else .plainTar

/-! ## Name validation (restore.rs check_name / canonicalize_name)

The unix host is modelled: the windows_safe flag is computed but the
WindowsUnsafeName rejection is cfg(windows) only. -/

structure PathValidation where
  wellFormed : Bool
  windowsSafe : Bool
deriving Repr, DecidableEq

def checkName (name : String) : PathValidation :=
  if name = "" then ⟨false, false⟩
  else
    let wf0 := true
    let wf1 := if (wf0 && name == ".") || name == ".." then false else wf0
    let wf2 := if wf1 && (strStartsWith name "/" || strStartsWith name "./" ||
                          strStartsWith name "../") then false else wf1
    let wf3 := if wf2 && (strEndsWith name "/." || strEndsWith name "/..")
               then false else wf2
    ⟨wf3, !(strContainsChar name '\\')⟩

/-- canonicalize_name: reject names whose checkName is not well formed,
otherwise recompose the path from its components (the Rust
name.components().collect::<PathBuf>() idiom). -/
def canonicalizeName (name : String) : Except CacheError String :=
  let v := checkName name
  if !v.wellFormed then .error (.malformedName name)
  else .ok (String.intercalate "/" (relComponents name))

/-! ## Filesystem model

A finite association list from absolute paths — component lists below the
implicit root — to nodes.  Keys are compared after lexical cleaning, which
matches how the OS resolves "." and ".." steps when no symlink sits on the
traversed prefix; none of the theorems below exercises a state where that
distinction matters.  Symlink targets are raw strings, preserved verbatim
exactly as the tar header stores them. -/

inductive FsNode where
  | dir (mode : Nat)
  | file (mode : Nat) (content : List Nat)
  | symlink (mode : Nat) (target : String)
deriving Repr, DecidableEq

abbrev Fs : Type := List (List String × FsNode)

def fsLookup (fs : Fs) (key : List String) : Option FsNode :=
  (fs.find? fun e => cleanAbsComps e.1 == cleanAbsComps key).map Prod.snd

def fsInsert (fs : Fs) (key : List String) (node : FsNode) : Fs :=
  (fs.filter fun e => !(cleanAbsComps e.1 == cleanAbsComps key)) ++
    [(key, node)]

def fsRemove (fs : Fs) (key : List String) : Fs :=
  fs.filter fun e => !(cleanAbsComps e.1 == cleanAbsComps key)

def fsExists (fs : Fs) (key : List String) : Bool :=
  (fsLookup fs key).isSome

/-- The mode with which create_dir_all materializes missing directories
(0o777 masked by the usual umask). -/
def fsDefaultDirMode : Nat := 0o755

/-- The lstat mode of a freshly created symlink on Linux. -/
def fsSymlinkMode : Nat := 0o777

def fsNodeWithMode (mode : Nat) : FsNode → FsNode
  | .dir _ => .dir mode
  | .file _ c => .file mode c
  | .symlink _ t => .symlink mode t

def fsSetPermissions (fs : Fs) (key : List String) (mode : Nat) : Fs :=
  fs.map fun e =>
    if cleanAbsComps e.1 == cleanAbsComps key then
      (e.1, fsNodeWithMode mode e.2)
    else e

/-- fs::create_dir_all: walk the prefixes, creating missing directories.  An
existing directory is kept; a symlink prefix is followed by the OS (the
model assumes it resolves to a directory); an existing file fails. -/
def fsCreateDirAllAux : Fs → List String → List String → Except CacheError Fs
  | fs, _, [] => .ok fs
  | fs, done, c :: rest =>
    let cur := done ++ [c]
    match fsLookup fs cur with
    | none => fsCreateDirAllAux (fsInsert fs cur (.dir fsDefaultDirMode))
        cur rest
    | some (.dir _) => fsCreateDirAllAux fs cur rest
    | some (.symlink _ _) => fsCreateDirAllAux fs cur rest
    | some (.file _ _) => .error (.io "File exists (os error 17)")

def fsCreateDirAll (fs : Fs) (key : List String) : Except CacheError Fs :=
  fsCreateDirAllAux fs [] key

/-! ## Tar entries -/

inductive EntryType where
  | regular
  | directory
  | symlink
  | other
deriving Repr, DecidableEq

structure TarHeader where
  path : String
  entryType : EntryType
  mode : Nat
  size : Nat
  linkName : Option String
deriving Repr, DecidableEq

structure TarEntry where
  header : TarHeader
  body : List Nat
deriving Repr, DecidableEq

/-! ## Safe walk (restore_directory.rs check_path / safe_mkdir_all)

check_path recurses on relative link targets; the recursion is unbounded in
the source (a self-referential symlink overflows the stack), so the model
carries fuel and flags exhaustion as an io error.  None of the theorems
depends on the fuel branch. -/

def checkPath (fuel : Nat) (anchor path : List String) (fs : Fs) :
    Except CacheError (List String) :=
  match fuel with
  | 0 => .error (.io "check_path recursion limit")
  | fuel + 1 =>
    let resolved := anchor ++ path
    match fsLookup fs resolved with
    | none => .ok resolved
    | some (.dir _) => .ok resolved
    | some (.file _ _) => .ok resolved
    | some (.symlink _ target) =>
      if strStartsWith target "/" then
        if anchor.isPrefixOf (absComponents target) then .ok resolved
        else .error (.linkOutsideOfDirectory target)
      else
        if anchor.isPrefixOf (anchor ++ relComponents target) then
          checkPath fuel anchor (relComponents target) fs
        else .error (.linkOutsideOfDirectory target)

/-- The fuel given to check_path everywhere below; any bound works for the
concrete states exercised. -/
def checkPathFuel : Nat := 99

/-- The component loop of safe_mkdir_all: check_path runs on each proper
prefix of the directory path — the prefix is checked before the component
is pushed, so the full path itself is never checked. -/
def checkPrefixes (anchor : List String) (fs : Fs) :
    List String → List String → Except CacheError Unit
  | _, [] => .ok ()
  | current, c :: rest =>
    match checkPath checkPathFuel anchor current fs with
    | .error e => .error e
    | .ok _ => checkPrefixes anchor fs (current ++ [c]) rest

def safeMkdirAll (anchor processedName : List String) (mode : Nat)
    (fs : Fs) : (Except CacheError Unit) × Fs :=
  match checkPrefixes anchor fs [] processedName with
  | .error e => (.error e, fs)
  | .ok _ =>
    match fsCreateDirAll fs (anchor ++ processedName) with
    | .error e => (.error e, fs)
    | .ok fs2 => (.ok (), fsSetPermissions fs2 (anchor ++ processedName) mode)

/-- safe_mkdir_file (restore_regular.rs): the is_root_file test compares
the parent with Path::new("."), but the parent of a single-component name
is "" — the test is never true, so the parent chain (empty for a
root-level file) is always handed to safe_mkdir_all with mode 0o755; for
an empty chain that checks no prefixes, create_dir_all's the anchor itself
and chmods it to 0o755. -/
def safeMkdirFile (anchor processedName : List String) (fs : Fs) :
    (Except CacheError Unit) × Fs :=
  safeMkdirAll anchor processedName.dropLast 0o755 fs

/-! ## Entry restorers -/

/-- restore_directory: canonicalize the name, safe-walk and mkdir -p, then
chmod to the header mode. -/
def restoreDirectory (anchor : List String) (header : TarHeader) (fs : Fs) :
    (Except CacheError (List String)) × Fs :=
  match canonicalizeName header.path with
  | .error e => (.error e, fs)
  | .ok nameStr =>
    let name := relComponents nameStr
    match safeMkdirAll anchor name header.mode fs with
    | (.error e, fs2) => (.error e, fs2)
    | (.ok _, fs2) => (.ok name, fs2)

/-- Opening with write+create+truncate and (on unix) the header mode: the
mode from OpenOptionsExt applies only when the file is created; writing
through a symlink is outside the modelled states. -/
def fsWriteFile (fs : Fs) (key : List String) (mode : Nat)
    (content : List Nat) : Except CacheError Fs :=
  match fsLookup fs key with
  | none => .ok (fsInsert fs key (.file mode content))
  | some (.file oldMode _) => .ok (fsInsert fs key (.file oldMode content))
  | some (.dir _) => .error (.io "Is a directory (os error 21)")
  | some (.symlink _ _) => .error (.io "write through symlink not modelled")

/-- restore_regular: canonicalize, safe_mkdir_file for the parent chain,
then open write+create+truncate with the header mode and copy the body. -/
def restoreRegular (anchor : List String) (header : TarHeader)
    (body : List Nat) (fs : Fs) : (Except CacheError (List String)) × Fs :=
  match canonicalizeName header.path with
  | .error e => (.error e, fs)
  | .ok nameStr =>
    let name := relComponents nameStr
    match safeMkdirFile anchor name fs with
    | (.error e, fs2) => (.error e, fs2)
    | (.ok _, fs2) =>
      match fsWriteFile fs2 (anchor ++ name) header.mode body with
      | .error e => (.error e, fs2)
      | .ok fs3 => (.ok name, fs3)

/-- canonicalize_linkname (restore_symlink.rs): lexically clean the stored
target; an absolute cleaned target is canonical by rule; a relative one is
joined onto the parent directory of the symlink location and cleaned
again.  Used only as a graph / existence key — materialization stores the
target verbatim. -/
def canonicalizeLinkname (anchor processedName : List String)
    (linkname : String) : List String :=
  let cleaned := pathClean linkname
  if strStartsWith cleaned "/" then absComponents cleaned
  else
    let source := anchor ++ processedName
    let parent := if source = [] then anchor else source.dropLast
    cleanAbsComps (parent ++ relComponents cleaned)

/-- actually_restore_symlink: ensure the parent chain, remove a pre-existing
file or symlink at the location (errors ignored — a directory stays and
makes creation fail), create the symlink with the verbatim target, and run
the cfg(unix) permissions block.  That block reads the symlink metadata and
sets the header mode on the in-memory Permissions value only; the source
never writes it back, so the filesystem keeps the creation-time mode. -/
def actuallyRestoreSymlink (anchor name : List String) (header : TarHeader)
    (fs : Fs) : (Except CacheError (List String)) × Fs :=
  match safeMkdirFile anchor name fs with
  | (.error e, fs2) => (.error e, fs2)
  | (.ok _, fs2) =>
    let key := anchor ++ name
    let fs3 := match fsLookup fs2 key with
      | some (.file _ _) => fsRemove fs2 key
      | some (.symlink _ _) => fsRemove fs2 key
      | _ => fs2
    match header.linkName with
    | none => (.error (.io "panic: have linkname"), fs3)
    | some target =>
      match fsLookup fs3 key with
      | some _ => (.error (.io "File exists (os error 17)"), fs3)
      | none => (.ok name, fsInsert fs3 key (.symlink fsSymlinkMode target))

/-- restore_symlink (first pass): defer — by failing with
LinkTargetDoesNotExist — whenever the lexically canonicalized target does
not exist yet. -/
def restoreSymlink (anchor : List String) (header : TarHeader) (fs : Fs) :
    (Except CacheError (List String)) × Fs :=
  match canonicalizeName header.path with
  | .error e => (.error e, fs)
  | .ok nameStr =>
    let name := relComponents nameStr
    match header.linkName with
    | none => (.error (.io "panic: symlink without linkname"), fs)
    | some linkname =>
      let processedLinkname := canonicalizeLinkname anchor name linkname
      if !(fsExists fs processedLinkname) then
        (.error (.linkTargetDoesNotExist
          (String.intercalate "/" processedLinkname)), fs)
      else actuallyRestoreSymlink anchor name header fs

/-- restore_symlink_with_missing_target (second pass): materialize without
the existence check. -/
def restoreSymlinkWithMissingTarget (anchor : List String)
    (header : TarHeader) (fs : Fs) : (Except CacheError (List String)) × Fs :=
  match canonicalizeName header.path with
  | .error e => (.error e, fs)
  | .ok nameStr => actuallyRestoreSymlink anchor (relComponents nameStr)
      header fs

/-- restore_entry: dispatch on the tar entry type; anything but regular,
directory or symlink is UnsupportedFileType. -/
def restoreEntry (anchor : List String) (e : TarEntry) (fs : Fs) :
    (Except CacheError (List String)) × Fs :=
  match e.header.entryType with
  | .directory => restoreDirectory anchor e.header fs
  | .regular => restoreRegular anchor e.header e.body fs
  | .symlink => restoreSymlink anchor e.header fs
  | .other => (.error .unsupportedFileType, fs)

/-- The first-pass loop of restore_entries: a LinkTargetDoesNotExist error
defers the entry and continues; any other error aborts immediately;
successes accumulate restored names. -/
def restoreEntriesLoop (anchor : List String) :
    List TarEntry → Fs → List TarEntry → List (List String) →
    (Except CacheError (List (List String) × List TarEntry)) × Fs
  | [], fs, deferred, restored => (.ok (restored, deferred), fs)
  | e :: es, fs, deferred, restored =>
    match restoreEntry anchor e fs with
    | (.error (.linkTargetDoesNotExist _), fs2) =>
        restoreEntriesLoop anchor es fs2 (deferred ++ [e]) restored
    | (.error err, fs2) => (.error err, fs2)
    | (.ok p, fs2) => restoreEntriesLoop anchor es fs2 deferred
        (restored ++ [p])

/-! ## Topological sort (petgraph::algo::toposort contract)

Kahn's algorithm over a node list and an edge list; it succeeds — with a
topological permutation of the nodes — exactly when the directed graph has
no cycle, which is the petgraph toposort contract
topologically_restore_symlinks relies on (proved below as toposort_sound /
toposort_complete). -/

abbrev GKey : Type := List String

def hasIncoming (edges : List (GKey × GKey)) (remaining : List GKey)
    (v : GKey) : Bool :=
  edges.any fun e => decide (e.2 = v) && decide (e.1 ∈ remaining)

def pickSource (remaining : List GKey) (edges : List (GKey × GKey)) :
    Option GKey :=
  remaining.find? fun v => !(hasIncoming edges remaining v)

/-- Removal of the first occurrence (Vec::retain-style helper for the Kahn
model). -/
def removeFirst (v : GKey) : List GKey → List GKey
  | [] => []
  | x :: xs => if x = v then xs else x :: removeFirst v xs

/-- Position of the first occurrence, used to express topological order. -/
def rankIdx (v : GKey) : List GKey → Nat
  | [] => 0
  | x :: xs => if x = v then 0 else rankIdx v xs + 1

def kahnAux (edges : List (GKey × GKey)) :
    Nat → List GKey → Option (List GKey)
  | 0, remaining => if remaining.isEmpty then some [] else none
  | _ + 1, [] => some []
  | n + 1, r :: rs =>
      match pickSource (r :: rs) edges with
      | none => none
      | some v => (kahnAux edges n (removeFirst v (r :: rs))).map (v :: ·)

def toposort (nodes : List GKey) (edges : List (GKey × GKey)) :
    Option (List GKey) :=
  kahnAux edges nodes.length nodes

/-- A directed cycle: some node reaches itself through a nonempty edge
path. -/
def Cyclic (edges : List (GKey × GKey)) : Prop :=
  ∃ v, Relation.TransGen (fun a b => (a, b) ∈ edges) v v

/-! ## Second pass (restore.rs topologically_restore_symlinks) -/

structure SymGraph where
  nodes : List GKey
  edges : List (GKey × GKey)
  headers : List (GKey × TarHeader)
deriving Repr, DecidableEq

/-- HashMap::insert replaces, so a lookup takes the last binding for a
key. -/
def headerFind (headers : List (GKey × TarHeader)) (k : GKey) :
    Option TarHeader :=
  (headers.reverse.find? fun e => e.1 == k).map Prod.snd

/-- The graph-building loop: per deferred entry, the node keys are the
canonicalized location of the symlink file (canonicalize_linkname applied
to the processed name itself) and the canonicalized link target; one edge
runs from source to target; the header map records the entry's header under
the source node. -/
def buildSymlinkGraphAux (anchor : List String) :
    List TarEntry → SymGraph → Except CacheError SymGraph
  | [], g => .ok g
  | e :: es, g =>
    match canonicalizeName e.header.path with
    | .error err => .error err
    | .ok nameStr =>
      let name := relComponents nameStr
      let source := canonicalizeLinkname anchor name nameStr
      match e.header.linkName with
      | none => .error (.io "panic: symlink without linkname")
      | some linkname =>
        let target := canonicalizeLinkname anchor name linkname
        let nodes1 := if source ∈ g.nodes then g.nodes
                      else g.nodes ++ [source]
        let nodes2 := if target ∈ nodes1 then nodes1
                      else nodes1 ++ [target]
        buildSymlinkGraphAux anchor es
          ⟨nodes2, g.edges ++ [(source, target)],
           g.headers ++ [(source, e.header)]⟩

def buildSymlinkGraph (anchor : List String) (symlinks : List TarEntry) :
    Except CacheError SymGraph :=
  buildSymlinkGraphAux anchor symlinks ⟨[], [], []⟩

/-- The materialization loop over the sorted nodes: keys without a header
(pure targets) are skipped; a failing materialization aborts. -/
def topoRestoreLoop (anchor : List String)
    (headers : List (GKey × TarHeader)) :
    List GKey → Fs → List (List String) →
    (Except CacheError (List (List String))) × Fs
  | [], fs, acc => (.ok acc, fs)
  | k :: ks, fs, acc =>
    match headerFind headers k with
    | none => topoRestoreLoop anchor headers ks fs acc
    | some hdr =>
      match restoreSymlinkWithMissingTarget anchor hdr fs with
      | (.error e, fs2) => (.error e, fs2)
      | (.ok p, fs2) => topoRestoreLoop anchor headers ks fs2 (acc ++ [p])

def topologicallyRestoreSymlinks (anchor : List String)
    (symlinks : List TarEntry) (fs : Fs) :
    (Except CacheError (List (List String))) × Fs :=
  match buildSymlinkGraph anchor symlinks with
  | .error e => (.error e, fs)
  | .ok g =>
    match toposort g.nodes g.edges with
    | none => (.error .cycleDetected, fs)
    | some order => topoRestoreLoop anchor g.headers order fs []

/-- restore_entries: the first-pass loop followed by the topological second
pass over the deferred symlinks. -/
def restoreEntries (anchor : List String) (entries : List TarEntry)
    (fs : Fs) : (Except CacheError (List (List String))) × Fs :=
  match restoreEntriesLoop anchor entries fs [] [] with
  | (.error e, fs2) => (.error e, fs2)
  | (.ok (restored, deferred), fs2) =>
    match topologicallyRestoreSymlinks anchor deferred fs2 with
    | (.error e, fs3) => (.error e, fs3)
    | (.ok restored2, fs3) => (.ok (restored ++ restored2), fs3)

/-! ## Archive writer (writer.rs CacheArchive::add_file / create_header)

tar::Header::new_gnu yields a zeroed header (entry type byte 0 = Regular,
every numeric field all-NUL) with only the GNU magic set.  create_header
sets the path (twice — the second time with a trailing slash for
directories) and, on unix, the mode from the lstat result; the snapshot
sets neither the size nor the entry type.  add_file then records the link
target for symlinks, rejects unsupported types, zeroes
uid/gid/atime/mtime/ctime, and streams the file body only for a regular
header with positive size — otherwise an empty body.  The size field is
modelled as an Option: none is the all-NUL field new_gnu leaves behind,
which tar::Header::size() fails to parse (truncating at the first NUL
gives the empty string, whose octal parse errors), so reading the size off
a header that never saw set_size is an Err, not 0. -/

structure WriterHeader where
  path : String
  entryType : EntryType
  mode : Nat
  sizeField : Option Nat
  linkName : Option String
  uid : Nat
  gid : Nat
  atime : Nat
  mtime : Nat
  ctime : Nat
deriving Repr, DecidableEq

def newGnuHeader : WriterHeader :=
  ⟨"", .regular, 0, none, none, 0, 0, 0, 0, 0⟩

/-- tar::Header::size — Ok only when the octal field has been written by
set_size; on the untouched all-NUL field it returns the numeric-field
parse error (propagated by `?` as an IO error through CacheError). -/
def WriterHeader.size (h : WriterHeader) : Except CacheError Nat :=
  match h.sizeField with
  | none => .error (.io "numeric field was not a number")
  | some n => .ok n

def fsNodeMode : FsNode → Nat
  | .dir m => m
  | .file m _ => m
  | .symlink m _ => m

def getCanonicalTarName (pathUnix : String) (isDir : Bool) : String :=
  if isDir then pathUnix ++ "/" else pathUnix

def createHeader (pathUnix : String) (isDir : Bool) (mode : Nat) :
    WriterHeader :=
  let h0 := newGnuHeader
  let h1 := { h0 with path := pathUnix, mode := mode }
  { h1 with path := getCanonicalTarName pathUnix isDir }

/-- add_file, returning the (header, body) pair appended to the tar
stream. -/
def addFile (anchor filePath : List String) (fs : Fs) :
    Except CacheError (WriterHeader × List Nat) :=
  match fsLookup fs (anchor ++ filePath) with
  | none => .error (.io "No such file or directory (os error 2)")
  | some node =>
    let isDir := match node with
      | .dir _ => true
      | _ => false
    let pathUnix := String.intercalate "/" filePath
    let h1 := createHeader pathUnix isDir (fsNodeMode node)
    let h2 := match node with
      | .symlink _ target => { h1 with linkName := some target }
      | _ => h1
    if h2.entryType = .regular ∨ h2.entryType = .directory ∨
        h2.entryType = .symlink then
      let h3 := { h2 with uid := 0, gid := 0, atime := 0, mtime := 0,
                          ctime := 0 }
      if h3.entryType = .regular then
        match h3.size with
        | .error e => .error e
        | .ok n =>
          if n > 0 then
            match node with
            | .file _ content => .ok (h3, content)
            | _ => .error (.io "read failed")
          else .ok (h3, [])
      else .ok (h3, [])
    else .error .unsupportedFileType

/-- Modelled from the spec: "if absolute, it must lie under anchor; if
relative, resolve lexically against anchor and require the result to lie
under anchor" — the safe-walk acceptance condition for a symlink target as
the specification states it. -/
def specLinkTargetUnderAnchor (anchor : List String) (target : String) :
    Bool :=
  if strStartsWith target "/" then
    anchor.isPrefixOf (cleanAbsComps (absComponents target))
  else
    anchor.isPrefixOf (cleanAbsComps (anchor ++ relComponents target))

/-! ## Helper lemmas and claim theorems -/

theorem wordBytes_length (x : Nat) : (wordBytes x).length = 4 := rfl

theorem sha256_length (msg : List Nat) : (sha256 msg).length = 32 := by
  simp [sha256, wordBytes]

theorem wordBytes_lt (x : Nat) : ∀ b ∈ wordBytes x, b < 256 := by
  simp only [wordBytes, List.mem_cons, List.mem_singleton]
  intro b hb
  rcases hb with rfl | rfl | rfl | h
  · exact Nat.mod_lt _ (by omega)
  · exact Nat.mod_lt _ (by omega)
  · exact Nat.mod_lt _ (by omega)
  · simp at h
    omega

theorem sha256_bytes_lt (msg : List Nat) : ∀ b ∈ sha256 msg, b < 256 := by
  intro b hb
  simp only [sha256, List.mem_append] at hb
  rcases hb with ((((((h | h) | h) | h) | h) | h) | h) | h <;>
    exact wordBytes_lt _ _ h

/-- Zero-padding the key block means a long key and its SHA-256 digest define
the same HMAC function.  (The digest is 32 bytes, hence not further hashed.) -/
theorem hmacSha256_keyDigest (key : List Nat) (hlong : key.length > 64) :
    ∀ msg, hmacSha256 (sha256 key) msg = hmacSha256 key msg := by
  intro msg
  have h32 : (sha256 key).length = 32 := sha256_length key
  simp only [hmacSha256, hmacBlockKey, h32, hlong]
  norm_num

theorem b64Value_b64Char : ∀ v < 64, b64Value (b64Char v) = some v := by
  decide

/-- Strict decoding inverts encoding on byte lists. -/
theorem base64Decode_base64Encode (bs : List Nat) (hbs : ∀ b ∈ bs, b < 256) :
    base64Decode (base64Encode bs) = some bs := by
  rw [base64Decode, base64Encode]
  show base64DecodeChunks (base64EncodeChunks bs) = some bs
  induction bs using base64EncodeChunks.induct with
  | case1 => rfl
  | case2 a =>
      have ha : a < 256 := hbs a (by simp)
      have h1 : a / 4 < 64 := by omega
      have h2 : a % 4 * 16 < 64 := by omega
      rw [base64EncodeChunks, base64DecodeChunks, if_pos ⟨rfl, rfl, rfl⟩]
      simp only [b64Value_b64Char _ h1, b64Value_b64Char _ h2,
        Option.bind_eq_bind, Option.some_bind]
      rw [if_pos (by omega : a % 4 * 16 % 16 = 0)]
      have e1 : a / 4 * 4 + a % 4 * 16 / 16 = a := by omega
      rw [e1]
  | case3 a b =>
      have ha : a < 256 := hbs a (by simp)
      have hb : b < 256 := hbs b (by simp)
      have h1 : a / 4 < 64 := by omega
      have h2 : a % 4 * 16 + b / 16 < 64 := by omega
      have h3 : b % 16 * 4 < 64 := by omega
      have hch : ∀ v < 64, ¬ b64Char v = '=' := by decide
      rw [base64EncodeChunks, base64DecodeChunks]
      rw [if_neg (by
            intro hcon
            exact hch _ h3 hcon.1),
          if_pos ⟨rfl, rfl⟩]
      simp only [b64Value_b64Char _ h1, b64Value_b64Char _ h2,
        b64Value_b64Char _ h3, Option.bind_eq_bind, Option.some_bind]
      rw [if_pos (by omega : b % 16 * 4 % 4 = 0)]
      have e1 : a / 4 * 4 + (a % 4 * 16 + b / 16) / 16 = a := by omega
      have e2 : (a % 4 * 16 + b / 16) % 16 * 16 + b % 16 * 4 / 4 = b := by
        omega
      rw [e1, e2]
  | case4 a b c rest ih =>
      have ha : a < 256 := hbs a (by simp)
      have hb : b < 256 := hbs b (by simp)
      have hc : c < 256 := hbs c (by simp)
      have h1 : a / 4 < 64 := by omega
      have h2 : a % 4 * 16 + b / 16 < 64 := by omega
      have h3 : b % 16 * 4 + c / 64 < 64 := by omega
      have h4 : c % 64 < 64 := by omega
      have hrest : ∀ x ∈ rest, x < 256 := by
        intro x hx
        exact hbs x (by simp [hx])
      -- positions 3 and 4 of the head group carry alphabet characters, never
      -- a padding character, so the generic four-character branch applies
      have hch : ∀ v < 64, ¬ b64Char v = '=' := by decide
      rw [base64EncodeChunks, base64DecodeChunks]
      rw [if_neg (by
            intro hcon
            exact hch _ h3 hcon.1),
          if_neg (by
            intro hcon
            exact hch _ h4 hcon.1)]
      simp only [b64Value_b64Char _ h1, b64Value_b64Char _ h2,
        b64Value_b64Char _ h3, b64Value_b64Char _ h4, ih hrest,
        Option.bind_eq_bind, Option.some_bind]
      congr 1
      have e1 : a / 4 * 4 + (a % 4 * 16 + b / 16) / 16 = a := by omega
      have e2 : (a % 4 * 16 + b / 16) % 16 * 16 +
          (b % 16 * 4 + c / 64) / 4 = b := by omega
      have e3 : (b % 16 * 4 + c / 64) % 4 * 64 + c % 64 = c := by omega
      rw [e1, e2, e3]

theorem hmacSha256_bytes_lt (key msg : List Nat) :
    ∀ b ∈ hmacSha256 key msg, b < 256 :=
  sha256_bytes_lt _

/-- Round trip: a tag produced by generate_tag under some key always
validates under the same key. -/
theorem validate_generateTag (key : List Nat) (teamId hash : String)
    (body : List Nat) :
    validate key teamId hash body (generateTag key teamId hash body) =
      .ok true := by
  unfold validate generateTag
  rw [show base64Decode (base64Encode (generateTagBytes key teamId hash body))
        = some (generateTagBytes key teamId hash body) from
      base64Decode_base64Encode _ (hmacSha256_bytes_lt _ _)]
  simp [generateTagBytes]

/-- C7: for every hash and teamId, the signed metadata is a JSON object with
exactly two fields, named "hash" and "teamId", serialized hash first then
teamId; the tag is HMAC_SHA256(key, utf8(metadata) ++ body); and
generate_tag returns that value base64-encoded (standard padded
alphabet). -/
theorem claim_C7_metadata_and_tag (key : List Nat) (hash teamId : String)
    (body : List Nat) :
    constructMetadata hash teamId =
      "\x7b" ++ jsonStringLit "hash" ++ ":" ++ jsonStringLit hash ++ "," ++
        jsonStringLit "teamId" ++ ":" ++ jsonStringLit teamId ++ "\x7d" ∧
    generateTagBytes key teamId hash body =
      hmacSha256 key (utf8Bytes (constructMetadata hash teamId) ++ body) ∧
    generateTag key teamId hash body =
      base64Encode (generateTagBytes key teamId hash body) := by
  refine ⟨?_, rfl, rfl⟩
  simp [constructMetadata, serdeJsonStringStruct, joinComma,
    String.append_assoc]

/-- C10: validate applied to an expected tag that is not syntactically valid
base64 fails with Base64EncodingError (for every key, hash, team id and
body) instead of returning Ok(false). -/
theorem claim_C10_invalid_base64 (key : List Nat) (teamId hash : String)
    (body : List Nat) (expectedTag : String)
    (hbad : base64Decode expectedTag = none) :
    validate key teamId hash body expectedTag =
      .error .base64EncodingError := by
  unfold validate
  rw [hbad]

/-- Witness for C10 at a concrete input: "%" is not valid base64. -/
theorem claim_C10_invalid_base64_wit :
    base64Decode "%" = none ∧
    validate [107] "team" "hash" [1, 2, 3] "%" =
      .error .base64EncodingError :=
  ⟨by decide, claim_C10_invalid_base64 [107] "team" "hash" [1, 2, 3] "%"
      (by decide)⟩

/-- C1 as stated is false: (i) for a tag string that is not valid base64 —
which in particular is not the HMAC — validate returns an error, not false;
(ii) replacing the key by a different key whose HMAC block form coincides
(here: a 65-byte key replaced by its own SHA-256 digest, which HMAC-SHA256
zero-pads to the same block) leaves the previously generated tag valid. -/
theorem claim_C1_cex :
    (validate [107] "team" "hash" [1, 2, 3] "%" =
      Except.error SignatureError.base64EncodingError) ∧
    (sha256 (List.replicate 65 97) ≠ List.replicate 65 97) ∧
    (validate (sha256 (List.replicate 65 97)) "team" "hash" [1, 2, 3]
        (generateTag (List.replicate 65 97) "team" "hash" [1, 2, 3]) =
      Except.ok true) := by
  refine ⟨by rfl, ?_, ?_⟩
  · intro h
    have := congrArg List.length h
    rw [sha256_length] at this
    simp at this
  · have hk : ∀ msg, hmacSha256 (sha256 (List.replicate 65 97)) msg =
        hmacSha256 (List.replicate 65 97) msg :=
      hmacSha256_keyDigest (List.replicate 65 97) (by simp)
    unfold validate generateTag
    rw [show base64Decode
          (base64Encode (generateTagBytes (List.replicate 65 97)
            "team" "hash" [1, 2, 3]))
        = some (generateTagBytes (List.replicate 65 97)
            "team" "hash" [1, 2, 3]) from
      base64Decode_base64Encode _ (hmacSha256_bytes_lt _ _)]
    simp only [generateTagBytes, hk]
    simp

/-- C1, amended: validate(h, b, generate_tag(h, b)) is Ok(true) for every
key; validate returns Ok(false) for a tag that is syntactically valid base64
and decodes to bytes different from the HMAC (an invalid-base64 tag yields
Base64EncodingError instead); and changing the key invalidates the tag
exactly when the new key gives a different HMAC of the message (keys with
the same zero-padded/hashed HMAC block — e.g. a long key and its SHA-256
digest — keep the old tag valid). -/
theorem claim_C1_amended (key : List Nat) (teamId hash : String)
    (body : List Nat) :
    (validate key teamId hash body (generateTag key teamId hash body) =
      Except.ok true) ∧
    (∀ tag bs, base64Decode tag = some bs →
      bs ≠ generateTagBytes key teamId hash body →
      validate key teamId hash body tag = Except.ok false) ∧
    (∀ key2, generateTagBytes key2 teamId hash body ≠
        generateTagBytes key teamId hash body →
      validate key2 teamId hash body (generateTag key teamId hash body) =
        Except.ok false) := by
  refine ⟨validate_generateTag key teamId hash body, ?_, ?_⟩
  · intro tag bs hdec hne
    unfold validate
    rw [hdec]
    have : (hmacSha256 key
        (utf8Bytes (constructMetadata hash teamId) ++ body) == bs) = false :=
      beq_eq_false_iff_ne.mpr fun h => hne h.symm
    simp only [this]
  · intro key2 hne
    unfold validate generateTag
    rw [show base64Decode (base64Encode
          (generateTagBytes key teamId hash body))
        = some (generateTagBytes key teamId hash body) from
      base64Decode_base64Encode _ (hmacSha256_bytes_lt _ _)]
    have : (hmacSha256 key2
        (utf8Bytes (constructMetadata hash teamId) ++ body) ==
        generateTagBytes key teamId hash body) = false :=
      beq_eq_false_iff_ne.mpr hne
    simp only [this]

/-- Witness for the amended C1 at concrete inputs: the all-zero 32-byte tag
is valid base64 and differs from the true HMAC, so validate rejects it with
Ok(false); a key extended by one byte gives a different HMAC here, so the
old tag is rejected under it; and the round trip accepts. -/
theorem claim_C1_amended_wit :
    validate [107] "team" "hash" [1, 2, 3]
        (generateTag [107] "team" "hash" [1, 2, 3]) = Except.ok true ∧
    validate [107] "team" "hash" [1, 2, 3]
        (base64Encode (List.replicate 32 0)) = Except.ok false ∧
    validate [108] "team" "hash" [1, 2, 3]
        (generateTag [107] "team" "hash" [1, 2, 3]) = Except.ok false :=
  ⟨(claim_C1_amended [107] "team" "hash" [1, 2, 3]).1,
   (claim_C1_amended [107] "team" "hash" [1, 2, 3]).2.1
     (base64Encode (List.replicate 32 0)) (List.replicate 32 0)
     (by decide) (by decide),
   (claim_C1_amended [107] "team" "hash" [1, 2, 3]).2.2 [108] (by decide)⟩

/-- C3 is contradicted by the code: is_compressed is computed with Rust
Path::ends_with, which matches whole path components.  A file name such as
"foo.tar.zst" (whose name ends in the ".zst" suffix) therefore selects
plain uncompressed tar in both the reader and the writer; only a path whose
final component is literally ".zst" selects zstd. -/
theorem claim_C3_suffix_eval :
    (strEndsWith "/tmp/foo.tar.zst" ".zst" = true) ∧
    cacheReaderFormat "/tmp/foo.tar.zst" = StreamFormat.plainTar ∧
    cacheCreateFormat "/tmp/foo.tar.zst" = StreamFormat.plainTar ∧
    cacheReaderFormat "/tmp/.zst" = StreamFormat.zstdFramedTar ∧
    cacheCreateFormat "/tmp/.zst" = StreamFormat.zstdFramedTar := by
  decide

/-- C8 is refuted at the name "a/./b": it is accepted (it is none of the
rejected shapes) but the recomposition from components also removes the
mid-path "." segment, a normalization beyond stripping trailing
slashes. -/
theorem claim_C8_cex :
    canonicalizeName "a/./b" = Except.ok "a/b" ∧ "a/b" ≠ "a/./b" := by
  decide

/-- C8, amended: canonicalize_name fails with MalformedName exactly on the
empty name, exactly "." or "..", names starting with "/", "./" or "../",
and names ending with "/." or "/.."; every other name is accepted and
recomposed from its path components, which strips trailing slashes and also
collapses repeated separators and removes non-leading "." segments (".."
segments are preserved). -/
theorem claim_C8_amended (name : String) :
    canonicalizeName name =
      (if name = "" ∨ name = "." ∨ name = ".." ∨
          strStartsWith name "/" = true ∨ strStartsWith name "./" = true ∨
          strStartsWith name "../" = true ∨ strEndsWith name "/." = true ∨
          strEndsWith name "/.." = true
       then Except.error (CacheError.malformedName name)
       else Except.ok (String.intercalate "/" (relComponents name))) := by
  unfold canonicalizeName checkName
  by_cases h0 : name = ""
  · simp [h0]
  · rw [if_neg h0]
    by_cases h1 : name = "."
    · simp [h1]
    · by_cases h2 : name = ".."
      · simp [h1, h2]
      · by_cases h3 : strStartsWith name "/" = true
        · simp [h0, h1, h2, h3]
        · by_cases h4 : strStartsWith name "./" = true
          · simp [h0, h1, h2, h3, h4]
          · by_cases h5 : strStartsWith name "../" = true
            · simp [h0, h1, h2, h3, h4, h5]
            · by_cases h6 : strEndsWith name "/." = true
              · simp [h0, h1, h2, h3, h4, h5, h6]
              · by_cases h7 : strEndsWith name "/.." = true
                · simp [h0, h1, h2, h3, h4, h5, h6, h7]
                · simp [h0, h1, h2, h3, h4, h5, h6, h7]

/-- C4 is refuted: with the anchor /a and a prefix symlink escape → "../",
whose lexical resolution against the anchor leaves the anchor, check_path
nevertheless accepts (the claim requires LinkOutsideOfDirectory).  The code
joins the relative target without collapsing "..", and a component-wise
starts_with is always satisfied by such a join. -/
theorem claim_C4_cex :
    specLinkTargetUnderAnchor ["a"] "../" = false ∧
    checkPath checkPathFuel ["a"] ["escape"]
        [(["a"], .dir 493), (["a", "escape"], .symlink 511 "../")] =
      Except.ok ["a", ".."] := by
  decide

/-- C4, amended: for a symlink prefix, an absolute target is accepted
exactly when its uncollapsed components extend the anchor, else the walk
fails with LinkOutsideOfDirectory; a relative target always passes the
containment test — the plain join of anchor and target starts with the
anchor component-wise, ".." not collapsed — and the walk recurses on the
target path.  Safe-walk therefore accepts relative targets such as "../"
that lexically escape the anchor. -/
theorem claim_C4_amended (fuel : Nat) (anchor path : List String) (fs : Fs)
    (mode : Nat) (target : String)
    (hsym : fsLookup fs (anchor ++ path) = some (.symlink mode target)) :
    (strStartsWith target "/" = true →
      checkPath (fuel + 1) anchor path fs =
        (if anchor.isPrefixOf (absComponents target) then
           Except.ok (anchor ++ path)
         else Except.error (.linkOutsideOfDirectory target))) ∧
    (strStartsWith target "/" = false →
      anchor.isPrefixOf (anchor ++ relComponents target) = true ∧
      checkPath (fuel + 1) anchor path fs =
        checkPath fuel anchor (relComponents target) fs) := by
  have hpre : anchor.isPrefixOf (anchor ++ relComponents target) = true := by
    rw [List.isPrefixOf_iff_prefix]
    exact List.prefix_append _ _
  constructor
  · intro habs
    rw [checkPath]
    simp only [hsym, habs]
    rfl
  · intro hrel
    refine ⟨hpre, ?_⟩
    rw [checkPath]
    simp only [hsym, hrel, hpre]
    rfl

/-- Witness for the amended C4 at the escape state: the symlink hypothesis
holds, the relative-branch containment test passes, and the walk reduces to
the recursive call on the target path. -/
theorem claim_C4_amended_wit :
    (["a"] : List String).isPrefixOf (["a"] ++ relComponents "../") = true ∧
    checkPath 99 ["a"] ["escape"]
        [(["a"], .dir 493), (["a", "escape"], .symlink 511 "../")] =
      checkPath 98 ["a"] (relComponents "../")
        [(["a"], .dir 493), (["a", "escape"], .symlink 511 "../")] :=
  (claim_C4_amended 98 ["a"] ["escape"]
    [(["a"], .dir 493), (["a", "escape"], .symlink 511 "../")]
    511 "../" (by decide)).2 (by decide)

theorem restoreEntriesLoop_abort {anchor : List String} {e : TarEntry}
    {es : List TarEntry} {fs fs2 : Fs} {err : CacheError}
    (hrun : restoreEntry anchor e fs = (.error err, fs2))
    (hne : ∀ s, err ≠ .linkTargetDoesNotExist s) :
    ∀ deferred restored,
      restoreEntriesLoop anchor (e :: es) fs deferred restored =
        (.error err, fs2) := by
  intro deferred restored
  rw [restoreEntriesLoop, hrun]
  cases err with
  | linkTargetDoesNotExist s => exact absurd rfl (hne s)
  | io m => rfl
  | malformedName n => rfl
  | windowsUnsafeName n => rfl
  | unsupportedFileType => rfl
  | linkOutsideOfDirectory t => rfl
  | cycleDetected => rfl

/-- C6: in the first-pass loop, a LinkTargetDoesNotExist failure of the
current entry defers it and continues with the rest, while any other error
aborts the whole loop immediately with that error and the filesystem state
at the failure, regardless of the remaining entries — and for a failure at
the head of the archive, restore_entries as a whole propagates exactly
that error. -/
theorem claim_C6_error_policy (anchor : List String) (e : TarEntry)
    (es : List TarEntry) (fs fs2 : Fs) (deferred : List TarEntry)
    (restored : List (List String)) (err : CacheError)
    (hrun : restoreEntry anchor e fs = (.error err, fs2)) :
    ((∀ s, err ≠ .linkTargetDoesNotExist s) →
      restoreEntriesLoop anchor (e :: es) fs deferred restored =
        (.error err, fs2) ∧
      restoreEntries anchor (e :: es) fs = (.error err, fs2)) ∧
    (∀ s, err = .linkTargetDoesNotExist s →
      restoreEntriesLoop anchor (e :: es) fs deferred restored =
        restoreEntriesLoop anchor es fs2 (deferred ++ [e]) restored) := by
  constructor
  · intro hne
    refine ⟨restoreEntriesLoop_abort hrun hne deferred restored, ?_⟩
    rw [restoreEntries, restoreEntriesLoop_abort hrun hne [] []]
  · intro s hs
    subst hs
    rw [restoreEntriesLoop, hrun]

/-- Witness for C6: an unsupported-type entry aborts the loop even with a
further entry pending, and a symlink with a missing target is deferred
while iteration continues. -/
theorem claim_C6_error_policy_wit :
    (restoreEntriesLoop ["a"]
        [⟨⟨"x", .other, 0, 0, none⟩, []⟩,
         ⟨⟨"f", .regular, 420, 1, none⟩, [7]⟩]
        [(["a"], .dir 493)] [] [] =
      (.error .unsupportedFileType, [(["a"], .dir 493)]) ∧
     restoreEntries ["a"]
        [⟨⟨"x", .other, 0, 0, none⟩, []⟩,
         ⟨⟨"f", .regular, 420, 1, none⟩, [7]⟩]
        [(["a"], .dir 493)] =
      (.error .unsupportedFileType, [(["a"], .dir 493)])) ∧
    restoreEntriesLoop ["a"]
        [⟨⟨"l", .symlink, 448, 0, some "t"⟩, []⟩,
         ⟨⟨"f", .regular, 420, 1, none⟩, [7]⟩]
        [(["a"], .dir 493)] [] [] =
      restoreEntriesLoop ["a"]
        [⟨⟨"f", .regular, 420, 1, none⟩, [7]⟩]
        [(["a"], .dir 493)] [⟨⟨"l", .symlink, 448, 0, some "t"⟩, []⟩] [] :=
  ⟨(claim_C6_error_policy ["a"] ⟨⟨"x", .other, 0, 0, none⟩, []⟩
      [⟨⟨"f", .regular, 420, 1, none⟩, [7]⟩] [(["a"], .dir 493)]
      [(["a"], .dir 493)] [] [] .unsupportedFileType (by decide)).1
      (fun s h => CacheError.noConfusion h),
   (claim_C6_error_policy ["a"] ⟨⟨"l", .symlink, 448, 0, some "t"⟩, []⟩
      [⟨⟨"f", .regular, 420, 1, none⟩, [7]⟩] [(["a"], .dir 493)]
      [(["a"], .dir 493)] [] [] (.linkTargetDoesNotExist "a/t")
      (by decide)).2 "a/t" rfl⟩

/-- C9 evaluated at a symlink entry with header mode 0o700 over a state
with a pre-existing file at the location: the pre-existing entry is
removed and the symlink is created with the verbatim target, but the
on-disk mode afterwards is the creation default 0o777, not the header mode
— the cfg(unix) block sets the mode on an in-memory Permissions copy and
never persists it. -/
theorem claim_C9_mode_eval :
    actuallyRestoreSymlink ["a"] ["l"] ⟨"l", .symlink, 448, 0, some "t"⟩
        [(["a"], .dir 493), (["a", "l"], .file 420 [1])] =
      (Except.ok ["l"],
       [(["a"], .dir 493), (["a", "l"], .symlink fsSymlinkMode "t")]) ∧
    fsSymlinkMode ≠ 448 := by
  decide

theorem pickSource_mem {remaining : List GKey}
    {edges : List (GKey × GKey)} {v : GKey}
    (h : pickSource remaining edges = some v) : v ∈ remaining :=
  List.mem_of_find?_eq_some h

theorem pickSource_no_incoming {remaining : List GKey}
    {edges : List (GKey × GKey)} {v : GKey}
    (h : pickSource remaining edges = some v) :
    hasIncoming edges remaining v = false := by
  have := List.find?_some h
  simpa using this

theorem removeFirst_perm {v : GKey} {l : List GKey} (h : v ∈ l) :
    l.Perm (v :: removeFirst v l) := by
  induction l with
  | nil => cases h
  | cons x xs ih =>
      by_cases hx : x = v
      · subst hx
        rw [removeFirst, if_pos rfl]
      · rw [removeFirst, if_neg hx]
        have hv : v ∈ xs := by
          cases h with
          | head => exact absurd rfl hx
          | tail _ h2 => exact h2
        exact (List.Perm.cons x (ih hv)).trans (List.Perm.swap v x _)

theorem removeFirst_length {v : GKey} {l : List GKey} (h : v ∈ l) :
    (removeFirst v l).length + 1 = l.length := by
  have := (removeFirst_perm h).length_eq
  simpa using this.symm

theorem mem_removeFirst_of_ne {u v : GKey} {l : List GKey} (hne : u ≠ v)
    (h : u ∈ l) : u ∈ removeFirst v l := by
  induction l with
  | nil => cases h
  | cons x xs ih =>
      rw [removeFirst]
      by_cases hx : x = v
      · rw [if_pos hx]
        cases h with
        | head => exact absurd hx hne
        | tail _ h2 => exact h2
      · rw [if_neg hx]
        cases h with
        | head => exact List.mem_cons_self _ _
        | tail _ h2 => exact List.mem_cons_of_mem _ (ih h2)

theorem rankIdx_cons_self (v : GKey) (l : List GKey) :
    rankIdx v (v :: l) = 0 := by
  simp [rankIdx]

theorem rankIdx_cons_ne {x v : GKey} (l : List GKey) (h : x ≠ v) :
    rankIdx v (x :: l) = rankIdx v l + 1 := by
  simp [rankIdx, h]

/-- A successful Kahn run outputs a permutation of the remaining nodes. -/
theorem kahnAux_perm (edges : List (GKey × GKey)) :
    ∀ (fuel : Nat) (remaining order : List GKey),
      kahnAux edges fuel remaining = some order → order.Perm remaining := by
  intro fuel
  induction fuel with
  | zero =>
      intro remaining order h
      rw [kahnAux] at h
      by_cases he : remaining.isEmpty
      · rw [if_pos he] at h
        cases h
        rw [List.isEmpty_iff] at he
        subst he
        exact List.Perm.refl _
      · rw [if_neg he] at h
        cases h
  | succ n ih =>
      intro remaining order h
      cases remaining with
      | nil =>
          rw [kahnAux] at h
          cases h
          exact List.Perm.refl _
      | cons r rs =>
          rw [kahnAux] at h
          cases hps : pickSource (r :: rs) edges with
          | none =>
              simp only [hps] at h
              exact Option.noConfusion h
          | some v =>
              simp only [hps] at h
              cases hrec : kahnAux edges n (removeFirst v (r :: rs)) with
              | none => simp [hrec] at h
              | some order2 =>
                  simp only [hrec, Option.map_some'] at h
                  cases h
                  exact ((ih _ _ hrec).cons v).trans
                    (removeFirst_perm (pickSource_mem hps)).symm

/-- In a successful Kahn run, an edge inside the remaining set is output
source before target. -/
theorem kahnAux_rank (edges : List (GKey × GKey)) :
    ∀ (fuel : Nat) (remaining order : List GKey),
      kahnAux edges fuel remaining = some order →
      ∀ u w, (u, w) ∈ edges → u ∈ remaining → w ∈ remaining →
        rankIdx u order < rankIdx w order := by
  intro fuel
  induction fuel with
  | zero =>
      intro remaining order h u w _ hu _
      rw [kahnAux] at h
      by_cases he : remaining.isEmpty
      · rw [List.isEmpty_iff] at he
        subst he
        cases hu
      · rw [if_neg (by simpa [List.isEmpty_iff] using he)] at h
        cases h
  | succ n ih =>
      intro remaining order h u w hedge hu hw
      cases remaining with
      | nil => cases hu
      | cons r rs =>
          rw [kahnAux] at h
          cases hps : pickSource (r :: rs) edges with
          | none =>
              simp only [hps] at h
              exact Option.noConfusion h
          | some v =>
              simp only [hps] at h
              cases hrec : kahnAux edges n (removeFirst v (r :: rs)) with
              | none => simp [hrec] at h
              | some order2 =>
                  simp only [hrec, Option.map_some'] at h
                  cases h
                  by_cases hwv : w = v
                  · exfalso
                    subst hwv
                    have hni := pickSource_no_incoming hps
                    rw [hasIncoming, List.any_eq_false] at hni
                    have hcontra := hni (u, w) hedge
                    apply hcontra
                    simp [hu]
                  · have hw2 : w ∈ removeFirst v (r :: rs) :=
                      mem_removeFirst_of_ne hwv hw
                    by_cases huv : u = v
                    · subst huv
                      rw [rankIdx_cons_self,
                          rankIdx_cons_ne _ (fun hx => hwv hx.symm)]
                      exact Nat.succ_pos _
                    · have hu2 : u ∈ removeFirst v (r :: rs) :=
                        mem_removeFirst_of_ne huv hu
                      rw [show rankIdx u (v :: order2)
                            = rankIdx u order2 + 1 from
                          rankIdx_cons_ne _ (fun hx => huv hx.symm),
                          show rankIdx w (v :: order2)
                            = rankIdx w order2 + 1 from
                          rankIdx_cons_ne _ (fun hx => hwv hx.symm)]
                      exact Nat.succ_lt_succ (ih _ _ hrec u w hedge hu2 hw2)

/-- Soundness of the toposort model: success implies the edge relation has
no cycle (through nodes of the graph). -/
theorem toposort_sound {nodes order : List GKey}
    {edges : List (GKey × GKey)}
    (h : toposort nodes edges = some order)
    (hend : ∀ e ∈ edges, e.1 ∈ nodes ∧ e.2 ∈ nodes) : ¬ Cyclic edges := by
  rintro ⟨v, hv⟩
  have hrank : ∀ a b, Relation.TransGen (fun a b => (a, b) ∈ edges) a b →
      rankIdx a order < rankIdx b order := by
    intro a b hab
    induction hab with
    | single hstep =>
        exact kahnAux_rank edges _ _ _ h _ _ hstep
          (hend _ hstep).1 (hend _ hstep).2
    | tail _ hstep ih =>
        exact Nat.lt_trans ih (kahnAux_rank edges _ _ _ h _ _ hstep
          (hend _ hstep).1 (hend _ hstep).2)
  exact absurd (hrank v v hv) (Nat.lt_irrefl _)

/-- If every remaining node has an incoming edge from the remaining set,
the edge relation is cyclic (finite pigeonhole on the in-neighbour
function). -/
theorem cyclic_of_no_source {edges : List (GKey × GKey)}
    {remaining : List GKey} (hne : remaining ≠ [])
    (hall : ∀ v ∈ remaining, ∃ u ∈ remaining, (u, v) ∈ edges) :
    Cyclic edges := by
  classical
  choose f hfmem hfedge using hall
  let F : {v // v ∈ remaining} → {v // v ∈ remaining} :=
    fun x => ⟨f x.1 x.2, hfmem x.1 x.2⟩
  obtain ⟨v0, hv0⟩ := List.exists_mem_of_ne_nil remaining hne
  let g : Nat → {v // v ∈ remaining} := fun i => F^[i] ⟨v0, hv0⟩
  have hstep : ∀ k, ((g (k + 1)).1, (g k).1) ∈ edges := by
    intro k
    have : g (k + 1) = F (g k) := Function.iterate_succ_apply' F k _
    rw [this]
    exact hfedge (g k).1 (g k).2
  have hchain : ∀ d k, Relation.TransGen (fun a b => (a, b) ∈ edges)
      ((g (k + d + 1)).1) ((g k).1) := by
    intro d
    induction d with
    | zero => exact fun k => Relation.TransGen.single (hstep k)
    | succ m ih =>
        intro k
        exact Relation.TransGen.head
          (show ((g (k + m + 1 + 1)).1, (g (k + m + 1)).1) ∈ edges from
            hstep (k + m + 1)) (ih k)
  have hmap : ∀ i : Fin (remaining.length + 1), i ∈ Finset.univ →
      (g i.1).1 ∈ remaining.toFinset := by
    intro i _
    exact List.mem_toFinset.mpr (g i.1).2
  have hcard : remaining.toFinset.card < Finset.univ.card
      (α := Fin (remaining.length + 1)) := by
    have h1 : remaining.toFinset.card ≤ remaining.length :=
      remaining.toFinset_card_le
    simpa using Nat.lt_succ_of_le h1
  obtain ⟨i, _, j, _, hij, heq⟩ :=
    Finset.exists_ne_map_eq_of_card_lt_of_maps_to hcard hmap
  rcases Nat.lt_or_ge i.1 j.1 with hlt | hge
  · refine ⟨(g i.1).1, ?_⟩
    have hc := hchain (j.1 - i.1 - 1) i.1
    rw [show i.1 + (j.1 - i.1 - 1) + 1 = j.1 by omega] at hc
    rw [← heq] at hc
    exact hc
  · have hne2 : i.1 ≠ j.1 := fun hv => hij (Fin.ext hv)
    have hlt2 : j.1 < i.1 := by omega
    refine ⟨(g j.1).1, ?_⟩
    have hc := hchain (i.1 - j.1 - 1) j.1
    rw [show j.1 + (i.1 - j.1 - 1) + 1 = i.1 by omega] at hc
    rw [heq] at hc
    exact hc

/-- Completeness of the toposort model: an acyclic edge relation lets Kahn
consume the whole node list. -/
theorem kahnAux_complete (edges : List (GKey × GKey)) :
    ∀ (fuel : Nat) (remaining : List GKey),
      remaining.length ≤ fuel → ¬ Cyclic edges →
      (kahnAux edges fuel remaining).isSome := by
  intro fuel
  induction fuel with
  | zero =>
      intro remaining hlen _
      rw [kahnAux]
      have : remaining = [] := List.eq_nil_of_length_eq_zero
        (Nat.le_zero.mp hlen)
      simp [this]
  | succ n ih =>
      intro remaining hlen hacyc
      cases remaining with
      | nil => simp [kahnAux]
      | cons r rs =>
          rw [kahnAux]
          cases hps : pickSource (r :: rs) edges with
          | none =>
              exfalso
              apply hacyc
              apply cyclic_of_no_source (List.cons_ne_nil r rs)
              intro v hv
              have := List.find?_eq_none.mp hps v hv
              simp only [Bool.not_eq_true', Bool.not_eq_false] at this
              rw [hasIncoming, List.any_eq_true] at this
              obtain ⟨e, he, hprop⟩ := this
              simp only [Bool.and_eq_true, decide_eq_true_eq] at hprop
              refine ⟨e.1, hprop.2, ?_⟩
              rw [← hprop.1]
              exact he
          | some v =>
              have hvmem := pickSource_mem hps
              have hlen2 : (removeFirst v (r :: rs)).length ≤ n := by
                have := removeFirst_length hvmem
                simp only [List.length_cons] at this hlen
                omega
              have := ih _ hlen2 hacyc
              rw [Option.isSome_iff_exists] at this
              obtain ⟨order2, h2⟩ := this
              simp [h2]

theorem toposort_complete {nodes : List GKey} {edges : List (GKey × GKey)}
    (hacyc : ¬ Cyclic edges) : (toposort nodes edges).isSome :=
  kahnAux_complete edges nodes.length nodes (Nat.le_refl _) hacyc

theorem canonicalizeName_error_shape {name : String} {e : CacheError}
    (h : canonicalizeName name = .error e) : e = .malformedName name := by
  unfold canonicalizeName at h
  by_cases hwf : (checkName name).wellFormed
  · simp [hwf] at h
  · simp only [hwf, Bool.not_false, if_true] at h
    exact (Except.error.inj h).symm

/-- check_path never reports CycleDetected. -/
theorem checkPath_no_cycle :
    ∀ (fuel : Nat) (anchor path : List String) (fs : Fs),
      checkPath fuel anchor path fs ≠ .error .cycleDetected := by
  intro fuel
  induction fuel with
  | zero =>
      intro anchor path fs
      rw [checkPath]
      simp
  | succ n ih =>
      intro anchor path fs
      simp only [checkPath]
      cases hl : fsLookup fs (anchor ++ path) with
      | none => simp
      | some node =>
          cases node with
          | dir m => simp
          | file m c => simp
          | symlink m t =>
              by_cases habs : strStartsWith t "/" = true
              · simp only [habs, if_true]
                by_cases hpre : anchor.isPrefixOf (absComponents t) = true
                · simp [hpre]
                · simp [hpre]
              · simp only [Bool.not_eq_true] at habs
                simp only [habs, Bool.false_eq_true, if_false]
                by_cases hpre :
                    anchor.isPrefixOf (anchor ++ relComponents t) = true
                · simp only [hpre, if_true]
                  exact ih anchor (relComponents t) fs
                · simp [hpre]

theorem checkPrefixes_no_cycle (anchor : List String) (fs : Fs) :
    ∀ (comps current : List String),
      checkPrefixes anchor fs current comps ≠ .error .cycleDetected := by
  intro comps
  induction comps with
  | nil =>
      intro current
      rw [checkPrefixes]
      simp
  | cons c rest ih =>
      intro current
      rw [checkPrefixes]
      cases hc : checkPath checkPathFuel anchor current fs with
      | error e =>
          intro h
          cases h
          exact checkPath_no_cycle _ _ _ _ hc
      | ok r => exact ih (current ++ [c])

theorem fsCreateDirAllAux_no_cycle :
    ∀ (comps done : List String) (fs : Fs),
      fsCreateDirAllAux fs done comps ≠ .error .cycleDetected := by
  intro comps
  induction comps with
  | nil =>
      intro done fs
      rw [fsCreateDirAllAux]
      simp
  | cons c rest ih =>
      intro done fs
      rw [fsCreateDirAllAux]
      cases fsLookup fs (done ++ [c]) with
      | none => exact ih _ _
      | some node =>
          cases node with
          | dir m => exact ih _ _
          | symlink m t => exact ih _ _
          | file m co => simp

theorem safeMkdirAll_no_cycle (anchor name : List String) (mode : Nat)
    (fs : Fs) : (safeMkdirAll anchor name mode fs).1 ≠
      .error .cycleDetected := by
  rw [safeMkdirAll]
  cases hc : checkPrefixes anchor fs [] name with
  | error e =>
      intro h
      cases h
      exact checkPrefixes_no_cycle _ _ _ _ hc
  | ok r =>
      cases hm : fsCreateDirAll fs (anchor ++ name) with
      | error e =>
          intro h
          cases h
          exact fsCreateDirAllAux_no_cycle _ _ _ hm
      | ok fs2 => simp

theorem safeMkdirFile_no_cycle (anchor name : List String) (fs : Fs) :
    (safeMkdirFile anchor name fs).1 ≠ .error .cycleDetected := by
  rw [safeMkdirFile]
  exact safeMkdirAll_no_cycle _ _ _ _

theorem actuallyRestoreSymlink_no_cycle (anchor name : List String)
    (header : TarHeader) (fs : Fs) :
    (actuallyRestoreSymlink anchor name header fs).1 ≠
      .error .cycleDetected := by
  rw [actuallyRestoreSymlink]
  split
  · rename_i e fs2 heq
    intro h
    cases h
    have := safeMkdirFile_no_cycle anchor name fs
    rw [heq] at this
    exact this rfl
  · split
    · simp
    · dsimp only
      split <;> simp

theorem restoreSymlinkWithMissingTarget_no_cycle (anchor : List String)
    (header : TarHeader) (fs : Fs) :
    (restoreSymlinkWithMissingTarget anchor header fs).1 ≠
      .error .cycleDetected := by
  rw [restoreSymlinkWithMissingTarget]
  cases hc : canonicalizeName header.path with
  | error e =>
      intro h
      cases h
      cases canonicalizeName_error_shape hc
  | ok nameStr => exact actuallyRestoreSymlink_no_cycle _ _ _ _

theorem topoRestoreLoop_no_cycle (anchor : List String)
    (headers : List (GKey × TarHeader)) :
    ∀ (ks : List GKey) (fs : Fs) (acc : List (List String)),
      (topoRestoreLoop anchor headers ks fs acc).1 ≠
        .error .cycleDetected := by
  intro ks
  induction ks with
  | nil =>
      intro fs acc
      rw [topoRestoreLoop]
      simp
  | cons k rest ih =>
      intro fs acc
      rw [topoRestoreLoop]
      split
      · exact ih _ _
      · rename_i hdr heq1
        split
        · rename_i e fs2 heq2
          intro h
          cases h
          have := restoreSymlinkWithMissingTarget_no_cycle anchor hdr fs
          rw [heq2] at this
          exact this rfl
        · exact ih _ _

/-- The value returned by a successful actually_restore_symlink is the
processed name it was given. -/
theorem actuallyRestoreSymlink_ok_val {anchor name : List String}
    {header : TarHeader} {fs fs2 : Fs} {p : List String}
    (h : actuallyRestoreSymlink anchor name header fs = (.ok p, fs2)) :
    p = name := by
  rw [actuallyRestoreSymlink] at h
  split at h
  · simp at h
  · split at h
    · simp at h
    · dsimp only at h
      split at h
      · simp at h
      · simp only [Prod.mk.injEq, Except.ok.injEq] at h
        exact h.1.symm

/-- A successful second-pass materialization restores exactly the
canonicalized name of the header it was given. -/
theorem restoreSymlinkWithMissingTarget_ok_shape {anchor : List String}
    {header : TarHeader} {fs fs2 : Fs} {p : List String}
    (h : restoreSymlinkWithMissingTarget anchor header fs = (.ok p, fs2)) :
    ∃ nameStr, canonicalizeName header.path = .ok nameStr ∧
      p = relComponents nameStr := by
  rw [restoreSymlinkWithMissingTarget] at h
  cases hc : canonicalizeName header.path with
  | error e =>
      rw [hc] at h
      cases h
  | ok nameStr =>
      rw [hc] at h
      exact ⟨nameStr, rfl, actuallyRestoreSymlink_ok_val h⟩

theorem mem_insertNode (k v : GKey) (l : List GKey) :
    v ∈ (if v ∈ l then l else l ++ [v]) ∧
    (k ∈ l → k ∈ (if v ∈ l then l else l ++ [v])) := by
  by_cases h : v ∈ l
  · simp [h]
  · simp only [h, if_false]
    constructor
    · simp
    · intro hk
      exact List.mem_append_left _ hk

/-- Structural invariants of the graph-building loop: nodes and headers
grow monotonically, edge endpoints and header keys stay inside the node
set, and every processed entry has a header binding under its
canonicalized source key. -/
theorem buildSymlinkGraphAux_inv (anchor : List String) :
    ∀ (es : List TarEntry) (g g2 : SymGraph),
      buildSymlinkGraphAux anchor es g = .ok g2 →
      (∀ k, k ∈ g.nodes → k ∈ g2.nodes) ∧
      (∀ p, p ∈ g.headers → p ∈ g2.headers) ∧
      ((∀ e ∈ g.edges, e.1 ∈ g.nodes ∧ e.2 ∈ g.nodes) →
        ∀ e ∈ g2.edges, e.1 ∈ g2.nodes ∧ e.2 ∈ g2.nodes) ∧
      ((∀ p ∈ g.headers, p.1 ∈ g.nodes) → ∀ p ∈ g2.headers, p.1 ∈ g2.nodes) ∧
      (∀ e ∈ es, ∃ nameStr, canonicalizeName e.header.path = .ok nameStr ∧
        ∃ p, p ∈ g2.headers ∧
          p.1 = canonicalizeLinkname anchor (relComponents nameStr)
            nameStr) := by
  intro es
  induction es with
  | nil =>
      intro g g2 h
      rw [buildSymlinkGraphAux] at h
      cases h
      exact ⟨fun k hk => hk, fun p hp => hp, fun hb => hb, fun hb => hb,
        fun e he => absurd he (List.not_mem_nil e)⟩
  | cons e es ih =>
      intro g g2 h
      rw [buildSymlinkGraphAux] at h
      split at h
      · exact Except.noConfusion h
      · rename_i nameStr heq1
        dsimp only at h
        split at h
        · exact Except.noConfusion h
        · rename_i linkname heq2
          set src := canonicalizeLinkname anchor (relComponents nameStr)
            nameStr with hsrcdef
          set tgt := canonicalizeLinkname anchor (relComponents nameStr)
            linkname with htgtdef
          set n1 := if src ∈ g.nodes then g.nodes else g.nodes ++ [src]
            with hn1def
          set n2 := if tgt ∈ n1 then n1 else n1 ++ [tgt] with hn2def
          obtain ⟨mono_n, mono_h, pres_e, pres_k, cov⟩ := ih _ _ h
          dsimp only at mono_n mono_h pres_e pres_k cov
          have hsrc1 : src ∈ n1 := by
            rw [hn1def]
            exact (mem_insertNode src src g.nodes).1
          have hsrc2 : src ∈ n2 := by
            rw [hn2def]
            exact (mem_insertNode src tgt n1).2 hsrc1
          have htgt2 : tgt ∈ n2 := by
            rw [hn2def]
            exact (mem_insertNode tgt tgt n1).1
          have hsub : ∀ k, k ∈ g.nodes → k ∈ n2 := by
            intro k hk
            rw [hn2def]
            refine (mem_insertNode k tgt n1).2 ?_
            rw [hn1def]
            exact (mem_insertNode k src g.nodes).2 hk
          refine ⟨?_, ?_, ?_, ?_, ?_⟩
          · intro k hk
            exact mono_n k (hsub k hk)
          · intro p hp
            exact mono_h p (List.mem_append_left _ hp)
          · intro hbase
            apply pres_e
            intro e2 he2
            rcases List.mem_append.mp he2 with hold | hnew
            · obtain ⟨h1, h2⟩ := hbase e2 hold
              exact ⟨hsub _ h1, hsub _ h2⟩
            · rcases List.mem_singleton.mp hnew with rfl
              exact ⟨hsrc2, htgt2⟩
          · intro hbase
            apply pres_k
            intro p hp
            rcases List.mem_append.mp hp with hold | hnew
            · exact hsub _ (hbase p hold)
            · rcases List.mem_singleton.mp hnew with rfl
              exact hsrc2
          · intro e2 he2
            cases he2 with
            | head =>
                refine ⟨nameStr, heq1, ?_⟩
                refine ⟨(src, e.header), ?_, rfl⟩
                exact mono_h _ (List.mem_append_right _ (by simp))
            | tail _ he2 => exact cov e2 he2

theorem headerFind_mem {headers : List (GKey × TarHeader)} {k : GKey}
    {hdr : TarHeader} (h : headerFind headers k = some hdr) :
    ∃ p, p ∈ headers ∧ p.1 = k ∧ p.2 = hdr := by
  unfold headerFind at h
  cases hf : headers.reverse.find? (fun e => e.1 == k) with
  | none => rw [hf] at h; cases h
  | some p =>
      rw [hf] at h
      simp only [Option.map_some'] at h
      refine ⟨p, List.mem_reverse.mp (List.mem_of_find?_eq_some hf), ?_,
        Option.some.inj h⟩
      have := List.find?_some hf
      simpa using this

theorem headerFind_isSome_of_mem {headers : List (GKey × TarHeader)}
    {k : GKey} (h : ∃ p, p ∈ headers ∧ p.1 = k) :
    headerFind headers k ≠ none := by
  obtain ⟨p, hp, hk⟩ := h
  unfold headerFind
  intro hcon
  rw [Option.map_eq_none'] at hcon
  rw [List.find?_eq_none] at hcon
  exact hcon p (List.mem_reverse.mpr hp) (by simp [hk])

/-- On a successful materialization loop, the accumulator is preserved and
every sorted key that carries a header contributes its canonicalized name
to the result. -/
theorem topoRestoreLoop_covers (anchor : List String)
    (headers : List (GKey × TarHeader)) :
    ∀ (ks : List GKey) (fs : Fs) (acc acc2 : List (List String)) (fs2 : Fs),
      topoRestoreLoop anchor headers ks fs acc = (.ok acc2, fs2) →
      (∀ p ∈ acc, p ∈ acc2) ∧
      (∀ k ∈ ks, ∀ hdr, headerFind headers k = some hdr →
        ∃ nameStr, canonicalizeName hdr.path = .ok nameStr ∧
          relComponents nameStr ∈ acc2) := by
  intro ks
  induction ks with
  | nil =>
      intro fs acc acc2 fs2 h
      rw [topoRestoreLoop] at h
      simp only [Prod.mk.injEq, Except.ok.injEq] at h
      constructor
      · intro p hp
        rw [← h.1]
        exact hp
      · intro k hk
        cases hk
  | cons k rest ih =>
      intro fs acc acc2 fs2 h
      rw [topoRestoreLoop] at h
      split at h
      · rename_i heq
        obtain ⟨hacc, hcov⟩ := ih _ _ _ _ h
        refine ⟨hacc, ?_⟩
        intro k2 hk2 hdr hfind
        cases hk2 with
        | head =>
            rw [heq] at hfind
            cases hfind
        | tail _ h2 => exact hcov k2 h2 hdr hfind
      · rename_i hdr heq
        split at h
        · simp at h
        · rename_i p fs3 heq2
          obtain ⟨hacc, hcov⟩ := ih _ _ _ _ h
          refine ⟨fun q hq => hacc q (by simp [hq]), ?_⟩
          intro k2 hk2 hdr2 hfind
          cases hk2 with
          | head =>
              rw [heq] at hfind
              cases hfind
              obtain ⟨nameStr, hcn, hp⟩ :=
                restoreSymlinkWithMissingTarget_ok_shape heq2
              exact ⟨nameStr, hcn, hacc _ (by simp [hp])⟩
          | tail _ h2 => exact hcov k2 h2 hdr2 hfind

/-- C5 is refuted in its acyclic half: for this one-entry deferred list the
dependency graph is acyclic, yet the second pass materializes nothing — the
materialization of d/x fails with an io error because a file occupies d —
and aborts, leaving the filesystem unchanged. -/
theorem claim_C5_cex :
    topologicallyRestoreSymlinks ["a"]
        [⟨⟨"d/x", EntryType.symlink, 448, 0, some "t"⟩, []⟩]
        [(["a"], .dir 493), (["a", "d"], .file 420 [])] =
      (.error (.io "File exists (os error 17)"),
       [(["a"], .dir 493), (["a", "d"], .file 420 [])]) ∧
    buildSymlinkGraph ["a"]
        [⟨⟨"d/x", EntryType.symlink, 448, 0, some "t"⟩, []⟩] =
      .ok ⟨[["a", "d", "d", "x"], ["a", "d", "t"]],
           [(["a", "d", "d", "x"], ["a", "d", "t"])],
           [(["a", "d", "d", "x"],
             ⟨"d/x", EntryType.symlink, 448, 0, some "t"⟩)]⟩ ∧
    ¬ Cyclic [(["a", "d", "d", "x"], ["a", "d", "t"])] :=
  ⟨by decide, by decide,
   toposort_sound
     (show toposort [["a", "d", "d", "x"], ["a", "d", "t"]]
         [(["a", "d", "d", "x"], ["a", "d", "t"])] =
       some [["a", "d", "d", "x"], ["a", "d", "t"]] by decide)
     (by decide)⟩

/-- C5, amended: given the graph the code builds from the deferred entries
(source key → canonicalized target key per entry), a cycle makes the second
pass return CycleDetected with the filesystem untouched; an acyclic graph
never yields CycleDetected — the pass runs the materialization loop over a
topological permutation of the nodes — and if that loop succeeds, every
deferred entry's source key was materialized (one symlink per distinct
source key, under the last header recorded for that key). -/
theorem claim_C5_amended (anchor : List String) (symlinks : List TarEntry)
    (fs : Fs) (g : SymGraph)
    (hbuild : buildSymlinkGraph anchor symlinks = .ok g) :
    (Cyclic g.edges →
      topologicallyRestoreSymlinks anchor symlinks fs =
        (.error .cycleDetected, fs)) ∧
    (¬ Cyclic g.edges →
      (∀ fs2, topologicallyRestoreSymlinks anchor symlinks fs ≠
        (.error .cycleDetected, fs2)) ∧
      ∃ order, toposort g.nodes g.edges = some order ∧
        order.Perm g.nodes ∧
        topologicallyRestoreSymlinks anchor symlinks fs =
          topoRestoreLoop anchor g.headers order fs []) ∧
    (∀ acc fs2,
      topologicallyRestoreSymlinks anchor symlinks fs = (.ok acc, fs2) →
      ∀ e ∈ symlinks, ∃ nameStr,
        canonicalizeName e.header.path = .ok nameStr ∧
        ∃ hdr, headerFind g.headers
            (canonicalizeLinkname anchor (relComponents nameStr) nameStr) =
            some hdr ∧
          ∃ nameStr2, canonicalizeName hdr.path = .ok nameStr2 ∧
            relComponents nameStr2 ∈ acc) := by
  have hbuild2 : buildSymlinkGraphAux anchor symlinks ⟨[], [], []⟩ =
      .ok g := hbuild
  obtain ⟨_, _, pres_e, pres_k, cov⟩ :=
    buildSymlinkGraphAux_inv anchor symlinks _ _ hbuild2
  have hend : ∀ e ∈ g.edges, e.1 ∈ g.nodes ∧ e.2 ∈ g.nodes :=
    pres_e (by simp)
  have hkeys : ∀ p ∈ g.headers, p.1 ∈ g.nodes := pres_k (by simp)
  refine ⟨?_, ?_, ?_⟩
  · intro hcyc
    cases ht : toposort g.nodes g.edges with
    | none => simp only [topologicallyRestoreSymlinks, hbuild, ht]
    | some order => exact absurd hcyc (toposort_sound ht hend)
  · intro hnc
    obtain ⟨order, horder⟩ :=
      Option.isSome_iff_exists.mp (@toposort_complete g.nodes g.edges hnc)
    have hchar : topologicallyRestoreSymlinks anchor symlinks fs =
        topoRestoreLoop anchor g.headers order fs [] := by
      simp only [topologicallyRestoreSymlinks, hbuild, horder]
    refine ⟨?_, order, horder, kahnAux_perm _ _ _ _ horder, hchar⟩
    intro fs2 hcon
    rw [hchar] at hcon
    have := topoRestoreLoop_no_cycle anchor g.headers order fs []
    rw [hcon] at this
    exact this rfl
  · intro acc fs2 hok e he
    cases ht : toposort g.nodes g.edges with
    | none =>
        simp only [topologicallyRestoreSymlinks, hbuild, ht] at hok
        simp at hok
    | some order =>
        simp only [topologicallyRestoreSymlinks, hbuild, ht] at hok
        obtain ⟨hacc, hcov⟩ :=
          topoRestoreLoop_covers anchor g.headers order fs [] acc fs2 hok
        obtain ⟨nameStr, hcn, p, hpmem, hpkey⟩ := cov e he
        have hne := headerFind_isSome_of_mem ⟨p, hpmem, hpkey⟩
        cases hfind : headerFind g.headers
            (canonicalizeLinkname anchor (relComponents nameStr)
              nameStr) with
        | none => exact absurd hfind hne
        | some hdr =>
            obtain ⟨q, hq, hqk, _⟩ := headerFind_mem hfind
            have hknodes : canonicalizeLinkname anchor
                (relComponents nameStr) nameStr ∈ g.nodes := by
              rw [← hqk]
              exact hkeys q hq
            have hkorder : canonicalizeLinkname anchor
                (relComponents nameStr) nameStr ∈ order :=
              (kahnAux_perm _ _ _ _ ht).mem_iff.mpr hknodes
            obtain ⟨nameStr2, hcn2, hmem2⟩ :=
              hcov _ hkorder hdr hfind
            exact ⟨nameStr, hcn, hdr, hfind, nameStr2, hcn2, hmem2⟩

/-- Witness for the amended C5: the three-cycle one → two → three → one is
cyclic in the built graph, and the pass returns CycleDetected with the
filesystem unchanged. -/
theorem claim_C5_amended_wit :
    topologicallyRestoreSymlinks ["a"]
        [⟨⟨"one", EntryType.symlink, 511, 0, some "two"⟩, []⟩,
         ⟨⟨"two", EntryType.symlink, 511, 0, some "three"⟩, []⟩,
         ⟨⟨"three", EntryType.symlink, 511, 0, some "one"⟩, []⟩]
        [(["a"], .dir 493)] =
      (.error .cycleDetected, [(["a"], .dir 493)]) :=
  (claim_C5_amended ["a"]
    [⟨⟨"one", EntryType.symlink, 511, 0, some "two"⟩, []⟩,
     ⟨⟨"two", EntryType.symlink, 511, 0, some "three"⟩, []⟩,
     ⟨⟨"three", EntryType.symlink, 511, 0, some "one"⟩, []⟩]
    [(["a"], .dir 493)]
    ⟨[["a", "one"], ["a", "two"], ["a", "three"]],
     [(["a", "one"], ["a", "two"]), (["a", "two"], ["a", "three"]),
      (["a", "three"], ["a", "one"])],
     [(["a", "one"], ⟨"one", EntryType.symlink, 511, 0, some "two"⟩),
      (["a", "two"], ⟨"two", EntryType.symlink, 511, 0, some "three"⟩),
      (["a", "three"], ⟨"three", EntryType.symlink, 511, 0, some "one"⟩)]⟩
    (by decide)).1
    ⟨["a", "one"],
     Relation.TransGen.head
       (show (["a", "one"], ["a", "two"]) ∈
           [(["a", "one"], ["a", "two"]), (["a", "two"], ["a", "three"]),
            (["a", "three"], ["a", "one"])] by decide)
       (Relation.TransGen.head
         (show (["a", "two"], ["a", "three"]) ∈
             [(["a", "one"], ["a", "two"]), (["a", "two"], ["a", "three"]),
              (["a", "three"], ["a", "one"])] by decide)
         (Relation.TransGen.single
           (show (["a", "three"], ["a", "one"]) ∈
               [(["a", "one"], ["a", "two"]), (["a", "two"], ["a", "three"]),
                (["a", "three"], ["a", "one"])] by decide)))⟩

/-- C2 evaluated at a regular source file with the 3-byte body "abc":
add_file returns the size-field parse error instead of streaming the body,
because create_header never calls set_size — new_gnu leaves the octal size
field all-NUL, which tar::Header::size() fails to parse — and the entry
type (also never set) is always Regular, so the `&&` in the guard never
short-circuits past that read.  The streaming branch the claim describes
is dead: add_file fails for every entry, appending nothing at all. -/
theorem claim_C2_body_eval :
    addFile ["a"] ["f"]
        [(["a"], .dir 493), (["a", "f"], .file 420 [97, 98, 99])] =
      .error (.io "numeric field was not a number") ∧
    (createHeader "f" false 420).sizeField = none ∧
    (createHeader "f" false 420).entryType = .regular ∧
    ([97, 98, 99] : List Nat) ≠ [] := by
  decide

end Turbo
